import Mathlib

/-!
Verification development for the MoveWise route-planning core.

The definitions below are a shallow embedding of the Python modules
`movewise/optimisation.py`, `movewise/schedule.py` and `movewise/app.py`.
Costs, travel durations (seconds) and timestamps are modelled as rationals
(the Python code uses floats; every quantity the theorems touch is exact),
stay durations as integers (Python `int` minutes), and `datetime` values as
rational seconds counted from midnight of a reference day 0, so that the
value of `datetime.combine(today, t)` is `86400 * today + seconds-of t`.
-/

namespace MoveWise

/-- Cost-matrix lookup `m[i][j]`.  Python list indexing raises `IndexError`
out of range; every lookup performed in the claims is in range, where this
total function agrees with the Python expression. -/
def matCost (m : List (List ℚ)) (i j : ℕ) : ℚ :=
  (m.getD i []).getD j 0

/-- Python `min(x :: xs, key)` : scan left to right keeping the current
minimum, replacing it only when a strictly smaller key appears, so the
first element attaining the minimal key is returned. -/
def pyMin (key : ℕ → ℚ) (x : ℕ) (xs : List ℕ) : ℕ :=
  xs.foldl (fun b c => if key c < key b then c else b) x

/-- The `while unvisited:` loop of `nearest_neighbor` (optimisation.py).
`unvisited` is kept as a list in ascending index order: the Python code uses
a CPython `set` of the ints `0..n-1`, which iterates in ascending numeric
order for the small values involved, and `min` scans it in that order.
Each iteration removes the chosen element, so `fuel = n` steps suffice to
drain the whole list, exactly as the Python loop does. -/
def nnLoop (m : List (List ℚ)) : ℕ → List ℕ → ℕ → List ℕ
  | 0, _, _ => []
  | _ + 1, [], _ => []
  | fuel + 1, u :: us, current =>
    let nxt := pyMin (matCost m current) u us
    nxt :: nnLoop m fuel ((u :: us).erase nxt) nxt

/-- `nearest_neighbor` (optimisation.py).  For `n = 0` the Python function
returns `[]` before touching `start`; for `0 < n` it starts the route at
`start` and greedily appends nearest unvisited neighbours.  (Python raises
`KeyError` when `start ∉ range n`; the claims only use `start < n`.) -/
def nearest_neighbor (dist_matrix : List (List ℚ)) (start : ℕ) : List ℕ :=
  if dist_matrix.length = 0 then []
  else
    start :: nnLoop dist_matrix dist_matrix.length
      ((List.range dist_matrix.length).filter (fun j => j ≠ start)) start

/-- `tour_length` (the helper closure inside `two_opt`, optimisation.py):
sum of `m[r[i]][r[i+1]]` over consecutive positions — an open path, with no
closing edge back to the start. -/
def tour_length (m : List (List ℚ)) : List ℕ → ℚ
  | a :: b :: rest => matCost m a b + tour_length m (b :: rest)
  | _ => 0

/-- The pairs `(i, j)` enumerated by `for i in range(1, n - 2): for j in
range(i + 1, n - 1):` in `two_opt`, in scan order. -/
def candidatePairs (n : ℕ) : List (ℕ × ℕ) :=
  (List.range' 1 (n - 3)).flatMap fun i =>
    (List.range' (i + 1) (n - 2 - i)).map fun j => (i, j)

/-- The candidate tour `best[:i] + best[i:j][::-1] + best[j:]` built by
`two_opt`: the Python slice `best[i:j]` covers positions `i..j-1`, so the
reversed segment is the half-open range `[i, j)` and the element at
position `j` is untouched. -/
def applyMove (best : List ℕ) (i j : ℕ) : List ℕ :=
  best.take i ++ ((best.drop i).take (j - i)).reverse ++ best.drop j

/-- One scan of the nested `for` loops of `two_opt` over the remaining
candidate pairs: skip adjacent pairs (`j - i == 1`), and return the first
candidate tour strictly shorter than `best_length` (first-improvement). -/
def scanPairs (m : List (List ℚ)) (best : List ℕ) (best_length : ℚ) :
    List (ℕ × ℕ) → Option (List ℕ)
  | [] => none
  | (i, j) :: ps =>
    if j - i = 1 then scanPairs m best best_length ps
    else
      let new_route := applyMove best i j
      if tour_length m new_route < best_length then some new_route
      else scanPairs m best best_length ps

/-- A full scan of `two_opt`'s pair loops from the top: the first improving
move, if any.  (`best_length` in the Python loop always equals
`tour_length(best)` when a scan starts.) -/
def findImprove (m : List (List ℚ)) (best : List ℕ) : Option (List ℕ) :=
  scanPairs m best (tour_length m best) (candidatePairs best.length)

/-- The `while improved:` loop of `two_opt`: restart the scan after every
accepted move, stop at the first scan with no improving move.  Each accepted
move strictly decreases the tour length and every reachable tour is a
permutation of the input, so at most `n! - 1` moves are ever accepted and
any `fuel ≥ n!` makes this equal to the Python loop's fixpoint
(`two_opt_reaches_fixpoint` below). -/
def twoOptLoop (m : List (List ℚ)) : ℕ → List ℕ → List ℕ
  | 0, best => best
  | fuel + 1, best =>
    match findImprove m best with
    | none => best
    | some better => twoOptLoop m fuel better

/-- `two_opt` (optimisation.py). -/
def two_opt (route : List ℕ) (dist_matrix : List (List ℚ)) : List ℕ :=
  twoOptLoop dist_matrix (route.length.factorial + 1) route

/-- Reference next-stop choice written from the spec's words (§4.1): the
first candidate encountered when scanning the unvisited indices in
ascending index order whose cost from the current stop is minimal.  The
unvisited list is maintained in ascending index order, so list order is
ascending index order. -/
def refNext (key : ℕ → ℚ) (us : List ℕ) : Option ℕ :=
  us.find? fun j => us.all fun k => key j ≤ key k

/-- Loop of the spec's greedy reference algorithm: repeatedly append the
`refNext` choice and remove it from the unvisited list. -/
def greedyLoop (m : List (List ℚ)) : ℕ → List ℕ → ℕ → List ℕ
  | 0, _, _ => []
  | fuel + 1, unvisited, current =>
    match refNext (matCost m current) unvisited with
    | none => []
    | some nxt => nxt :: greedyLoop m fuel (unvisited.erase nxt) nxt

/-- The greedy reference algorithm of the spec (§4.1), against which
`nearest_neighbor` is compared in claim C6. -/
def greedy_reference (m : List (List ℚ)) (start : ℕ) : List ℕ :=
  if m.length = 0 then []
  else
    start :: greedyLoop m m.length
      ((List.range m.length).filter (fun j => j ≠ start)) start

/-- The candidate tour as described by claim C7: reversal of the segment
between positions `i` and `j` INCLUSIVE, elements after position `j`
unchanged.  (This differs from the source's Python slice `best[i:j]`.) -/
def applyMoveClaim (best : List ℕ) (i j : ℕ) : List ℕ :=
  best.take i ++ ((best.drop i).take (j + 1 - i)).reverse ++ best.drop (j + 1)

/-- Scan loop of the claim-C7 algorithm: same pair enumeration, same
adjacent-pair skip, same first-improvement rule, but candidates built with
the inclusive reversal `applyMoveClaim`. -/
def scanPairsClaim (m : List (List ℚ)) (best : List ℕ) (best_length : ℚ) :
    List (ℕ × ℕ) → Option (List ℕ)
  | [] => none
  | (i, j) :: ps =>
    if j - i = 1 then scanPairsClaim m best best_length ps
    else
      let new_route := applyMoveClaim best i j
      if tour_length m new_route < best_length then some new_route
      else scanPairsClaim m best best_length ps

/-- Full scan of the claim-C7 algorithm. -/
def findImproveClaim (m : List (List ℚ)) (best : List ℕ) : Option (List ℕ) :=
  scanPairsClaim m best (tour_length m best) (candidatePairs best.length)

/-- Improvement loop of the claim-C7 algorithm. -/
def twoOptLoopClaim (m : List (List ℚ)) : ℕ → List ℕ → List ℕ
  | 0, best => best
  | fuel + 1, best =>
    match findImproveClaim m best with
    | none => best
    | some better => twoOptLoopClaim m fuel better

/-- The 2-opt algorithm exactly as claim C7 words it (inclusive reversal). -/
def two_opt_claim (route : List ℕ) (dist_matrix : List (List ℚ)) : List ℕ :=
  twoOptLoopClaim dist_matrix (route.length.factorial + 1) route

/-- The candidate tour as described by the amended claim C7: reversal of
the half-open segment `[i, j)` — the elements strictly before position `i`,
the element at position `j` and everything after it are unchanged. -/
def applyMoveAmended (best : List ℕ) (i j : ℕ) : List ℕ :=
  best.take i ++ ((best.take j).drop i).reverse ++ best.drop j

/-- Scan loop of the amended-C7 algorithm. -/
def scanPairsAmended (m : List (List ℚ)) (best : List ℕ) (best_length : ℚ) :
    List (ℕ × ℕ) → Option (List ℕ)
  | [] => none
  | (i, j) :: ps =>
    if j - i = 1 then scanPairsAmended m best best_length ps
    else
      let new_route := applyMoveAmended best i j
      if tour_length m new_route < best_length then some new_route
      else scanPairsAmended m best best_length ps

/-- Full scan of the amended-C7 algorithm. -/
def findImproveAmended (m : List (List ℚ)) (best : List ℕ) : Option (List ℕ) :=
  scanPairsAmended m best (tour_length m best) (candidatePairs best.length)

/-- Improvement loop of the amended-C7 algorithm. -/
def twoOptLoopAmended (m : List (List ℚ)) : ℕ → List ℕ → List ℕ
  | 0, best => best
  | fuel + 1, best =>
    match findImproveAmended m best with
    | none => best
    | some better => twoOptLoopAmended m fuel better

/-- The 2-opt algorithm exactly as the amended claim C7 words it
(half-open reversal), to be proven equal to `two_opt`. -/
def two_opt_amended (route : List ℕ) (dist_matrix : List (List ℚ)) : List ℕ :=
  twoOptLoopAmended dist_matrix (route.length.factorial + 1) route

/-- `StopSchedule` (schedule.py): one scheduled stop.  Timestamps are in
rational seconds from midnight of reference day 0 (the value of
`datetime.combine(today, t)` is `86400 * today + seconds-of t`). -/
structure StopSchedule where
  index : ℕ
  arrival : ℚ
  departure : ℚ
  status : String
deriving DecidableEq

/-- Python `str.strip()` on a list of characters. -/
def trimChars (cs : List Char) : List Char :=
  ((cs.dropWhile Char.isWhitespace).reverse.dropWhile Char.isWhitespace).reverse

/-- Python `str.split(":")` on a list of characters. -/
def splitOnColon : List Char → List (List Char)
  | [] => [[]]
  | c :: rest =>
    let r := splitOnColon rest
    if c = ':' then [] :: r
    else
      match r with
      | [] => [[c]]
      | p :: ps => (c :: p) :: ps

/-- Python `int(s)` restricted to plain decimal digit strings (the only
shape the claims exercise; Python additionally strips whitespace and
accepts signs, which no claim relies on). -/
def charsToNat? (cs : List Char) : Option ℕ :=
  if cs ≠ [] ∧ cs.all Char.isDigit then
    some (cs.foldl (fun a c => 10 * a + (c.toNat - 48)) 0)
  else none

/-- `parse_time_string` (schedule.py): `h, m = map(int, t.strip().split(":"))`
then `time(hour=h, minute=m)`.  Python raises on a malformed string or an
out-of-range hour/minute; that is modelled as `none`. -/
def parse_time_string (t : String) : Option (ℕ × ℕ) :=
  match splitOnColon (trimChars t.data) with
  | [hs, ms] =>
    match charsToNat? hs, charsToNat? ms with
    | some h, some m => if h ≤ 23 ∧ m ≤ 59 then some (h, m) else none
    | _, _ => none
  | _ => none

/-- Seconds after midnight of a `(hour, minute)` time of day. -/
def timeSecs (h m : ℕ) : ℚ := h * 3600 + m * 60

/-- Timestamp of midnight of day `today`: `datetime.combine(today, 00:00)`. -/
def dayBase (today : ℤ) : ℚ := (today : ℚ) * 86400

/-- The status computation of `schedule_route` (schedule.py) for one stop:
no window (the guarded lookup `open_hours[loc] if loc < len(open_hours)
else None` yielding `None`) means "ok"; otherwise both window strings are
parsed (a parse failure raises, modelled as `none`) and placed on the
schedule's reference date `today`, and the arrival is compared strictly
against them. -/
def statusOf (open_hours : List (Option (String × String))) (today : ℤ)
    (loc : ℕ) (arrival : ℚ) : Option String :=
  match open_hours.getD loc none with
  | none => some "ok"
  | some (open_str, close_str) =>
    match parse_time_string open_str, parse_time_string close_str with
    | some o, some c =>
      some
        (if arrival < dayBase today + timeSecs o.1 o.2 then "warning"
         else if arrival > dayBase today + timeSecs c.1 c.2 then "closed"
         else "ok")
    | _, _ => none

/-- Strict matrix lookup `durations[i][j]`: `none` models Python's
`IndexError`. -/
def matEntry? (m : List (List ℚ)) (i j : ℕ) : Option ℚ :=
  (m[i]?).bind fun row => row[j]?

/-- The `for idx, loc_index in enumerate(route)` loop of `schedule_route`
(schedule.py): arrival = current time, status from `statusOf`, departure =
arrival + stay minutes (guarded lookup, default 0), and — except after the
last stop — the next current time advances by the travel seconds
`durations[loc][next]`. -/
def scheduleLoop (durations : List (List ℚ)) (stay_durations : List ℤ)
    (open_hours : List (Option (String × String))) (today : ℤ) :
    List ℕ → ℚ → Option (List StopSchedule)
  | [], _ => some []
  | loc :: rest, current_time =>
    (statusOf open_hours today loc current_time).bind fun status =>
      let departure : ℚ := current_time + 60 * ((stay_durations.getD loc 0 : ℤ) : ℚ)
      let stop : StopSchedule := ⟨loc, current_time, departure, status⟩
      match rest with
      | [] => some [stop]
      | next :: _ =>
        (matEntry? durations loc next).bind fun travel =>
          (scheduleLoop durations stay_durations open_hours today rest
              (departure + travel)).map fun tail => stop :: tail

/-- `schedule_route` (schedule.py).  `today` models the hidden input
`datetime.now().date()` read at the start of the function; `tz_offset` is
accepted and, as in the source, never used.  A parse failure of the
departure time or a window string, or an out-of-range duration lookup,
raises in Python and is modelled as `none`. -/
def schedule_route (route : List ℕ) (durations : List (List ℚ))
    (stay_durations : List ℤ) (open_hours : List (Option (String × String)))
    (departure_time_str : String) (tz_offset : ℤ) (today : ℤ) :
    Option (List StopSchedule) :=
  match parse_time_string departure_time_str with
  | none => none
  | some d =>
    scheduleLoop durations stay_durations open_hours today route
      (dayBase today + timeSecs d.1 d.2)

/-- Translation of every stop of a schedule by `delta` seconds (used to
state how `schedule_route` depends on the hidden current date). -/
def shiftStop (delta : ℚ) (s : StopSchedule) : StopSchedule :=
  ⟨s.index, s.arrival + delta, s.departure + delta, s.status⟩

/-- `total_duration` (the helper closure inside `compute_routes_and_select`,
app.py): `sum(dur_matrix[route[i]][route[i+1]] for i in range(len(route)-1))`
— the same consecutive-edge sum as `tour_length`. -/
def total_duration (dur_matrix : List (List ℚ)) (route : List ℕ) : ℚ :=
  tour_length dur_matrix route

/-- The parts of `compute_routes_and_select`'s result dict that the
selection rule determines: selected route, criterion label, and the
selected route's total duration. -/
structure SelectionResult where
  route : List ℕ
  criterion : String
  total_duration_s : ℚ
deriving DecidableEq

/-- The selection rule of `compute_routes_and_select` (app.py, the
`DualCriterionSelector` of the spec), taking the two candidate tours and
the shared duration matrix as inputs: if the duration-optimised tour's
total duration is zero select it with criterion "time"; otherwise select
by `diff_pct = |t_time - t_dist| / t_time * 100` against the threshold.
The reported total duration is `total_duration(selected_route)`. -/
def select_route (dur_matrix : List (List ℚ)) (time_route dist_route : List ℕ)
    (threshold_pct : ℚ) : SelectionResult :=
  let t_time := total_duration dur_matrix time_route
  let t_dist := total_duration dur_matrix dist_route
  if t_time = 0 then ⟨time_route, "time", total_duration dur_matrix time_route⟩
  else if |t_time - t_dist| / t_time * 100 ≤ threshold_pct then
    ⟨dist_route, "distance", total_duration dur_matrix dist_route⟩
  else ⟨time_route, "time", total_duration dur_matrix time_route⟩

/-- The per-leg loop of `compute_sequential_schedule` (app.py), with the
per-leg travel durations (obtained in the source from
`compute_distance_matrix`, an external routing collaborator per §6) passed
in directly.  The source's `Stop` is an import of a name that does not
exist in movewise/schedule.py (which defines `StopSchedule`); it is
modelled as `StopSchedule`.  Opening windows are anchored to the ARRIVAL's
own calendar day (`arrival_dt.date()`), parse failures are swallowed to
"ok" (`try/except`), and the unguarded `open_hours[leg_idx]` /
`stay_durations[leg_idx]` lookups raise (`none`) when out of range. -/
def seqLoop (stay_durations : List ℤ) (open_hours : List (Option (String × String))) :
    ℕ → List ℚ → ℚ → Option (List StopSchedule)
  | _, [], _ => some []
  | legIdx, travel :: rest, current_depart =>
    let arrival := current_depart + travel
    match open_hours[legIdx]? with
    | none => none
    | some window =>
      let status :=
        match window with
        | none => "ok"
        | some (open_str, close_str) =>
          match parse_time_string open_str, parse_time_string close_str with
          | some o, some c =>
            let base : ℚ := ((⌊arrival / 86400⌋ : ℤ) : ℚ) * 86400
            if arrival < base + timeSecs o.1 o.2 then "早すぎ"
            else if arrival > base + timeSecs c.1 c.2 then "営業時間外"
            else "ok"
          | _, _ => "ok"
      match stay_durations[legIdx]? with
      | none => none
      | some stay =>
        let departure := arrival + 60 * (stay : ℚ)
        (seqLoop stay_durations open_hours (legIdx + 1) rest departure).map
          fun tail => ⟨legIdx, arrival, departure, status⟩ :: tail

/-- `compute_sequential_schedule` (app.py), its schedule list only, with
per-leg durations passed in (see `seqLoop`).  The start stop is emitted
with departure = arrival = the parsed departure time — its stay duration is
never consulted — and with status "ok" unconditionally. -/
def compute_sequential_schedule (leg_durations : List ℚ) (stay_durations : List ℤ)
    (open_hours : List (Option (String × String))) (depart_time_str : String)
    (today : ℤ) : Option (List StopSchedule) :=
  match parse_time_string depart_time_str with
  | none => none
  | some d =>
    let depart := dayBase today + timeSecs d.1 d.2
    (seqLoop stay_durations open_hours 1 leg_durations depart).map
      fun rest => ⟨0, depart, depart, "ok"⟩ :: rest

/-! ### Helper lemmas about the 2-opt loop -/

theorem scanPairs_lt {m : List (List ℚ)} {best : List ℕ} {bl : ℚ} :
    ∀ {ps : List (ℕ × ℕ)} {r : List ℕ}, scanPairs m best bl ps = some r →
      tour_length m r < bl := by
  intro ps
  induction ps with
  | nil => intro r h; simp [scanPairs] at h
  | cons p ps ih =>
    intro r h
    obtain ⟨i, j⟩ := p
    rw [scanPairs] at h
    split at h
    · exact ih h
    · simp only [] at h
      split at h
      · cases h; assumption
      · exact ih h

theorem findImprove_lt {m : List (List ℚ)} {best r : List ℕ}
    (h : findImprove m best = some r) : tour_length m r < tour_length m best :=
  scanPairs_lt h

theorem twoOptLoop_le (m : List (List ℚ)) :
    ∀ (fuel : ℕ) (best : List ℕ),
      tour_length m (twoOptLoop m fuel best) ≤ tour_length m best := by
  intro fuel
  induction fuel with
  | zero => intro best; exact le_refl _
  | succ fuel ih =>
    intro best
    rw [twoOptLoop]
    cases h : findImprove m best with
    | none => exact le_refl _
    | some better => exact (ih better).trans (findImprove_lt h).le

theorem twoOptLoop_of_none {m : List (List ℚ)} {best : List ℕ}
    (h : findImprove m best = none) : ∀ fuel, twoOptLoop m fuel best = best := by
  intro fuel
  cases fuel with
  | zero => rfl
  | succ fuel => rw [twoOptLoop, h]

theorem twoOptLoop_of_some {m : List (List ℚ)} {best better : List ℕ}
    (h : findImprove m best = some better) (fuel : ℕ) :
    twoOptLoop m (fuel + 1) best = twoOptLoop m fuel better := by
  rw [twoOptLoop, h]

theorem twoOptLoopClaim_of_none {m : List (List ℚ)} {best : List ℕ}
    (h : findImproveClaim m best = none) : ∀ fuel, twoOptLoopClaim m fuel best = best := by
  intro fuel
  cases fuel with
  | zero => rfl
  | succ fuel => rw [twoOptLoopClaim, h]

theorem twoOptLoopClaim_of_some {m : List (List ℚ)} {best better : List ℕ}
    (h : findImproveClaim m best = some better) (fuel : ℕ) :
    twoOptLoopClaim m (fuel + 1) best = twoOptLoopClaim m fuel better := by
  rw [twoOptLoopClaim, h]

/-! ### Claim C5 -/

/-- Claim C5: for every input tour and cost matrix, the open-path tour
length of `two_opt`'s output is at most the open-path tour length of its
input. -/
theorem two_opt_length_le (route : List ℕ) (m : List (List ℚ)) :
    tour_length m (two_opt route m) ≤ tour_length m route := by
  unfold two_opt
  exact twoOptLoop_le m _ route

/-! ### Claim C10 -/

/-- Claim C10: for every tour of length at most 4 and every cost matrix,
`two_opt` returns its input unchanged: the loop bounds together with the
`j - i == 1` exclusion admit no candidate pair, so no reversal is ever
evaluated — for N = 4 just as for N ≤ 3. -/
theorem two_opt_small_identity (route : List ℕ) (m : List (List ℚ))
    (h : route.length ≤ 4) : two_opt route m = route := by
  have hc : candidatePairs route.length = [] ∨ candidatePairs route.length = [(1, 2)] := by
    set n := route.length with hn
    interval_cases n
    · left; decide
    · left; decide
    · left; decide
    · left; decide
    · right; decide
  have hnone : findImprove m route = none := by
    unfold findImprove
    rcases hc with hc | hc <;> rw [hc]
    · rfl
    · simp [scanPairs]
  unfold two_opt
  exact twoOptLoop_of_none hnone _

/-- Witness for C10 at the spec's own N = 4 example. -/
theorem two_opt_small_identity_witness :
    ([0, 1, 3, 2] : List ℕ).length ≤ 4 ∧
      two_opt [0, 1, 3, 2] [[0,10,15,20],[10,0,35,25],[15,35,0,30],[20,25,30,0]] = [0, 1, 3, 2] :=
  ⟨by decide, two_opt_small_identity [0, 1, 3, 2] _ (by decide)⟩

/-! ### Claim C7 -/

/-- Counterexample to claim C7 as stated: on this 5-location matrix the
source's `two_opt` (which reverses the half-open Python slice
`best[i:j]`, positions `i..j-1`) finds no improving move and returns its
input, while the algorithm worded in the claim (reversal of positions
`i..j` inclusive) accepts the move `(1, 3)` and returns a different tour. -/
theorem two_opt_claim_counterexample :
    two_opt [0, 1, 2, 3, 4]
        [[0,10,10,1,10],[10,0,10,10,10],[10,10,0,10,10],[10,10,10,0,10],[10,10,10,10,0]] ≠
      two_opt_claim [0, 1, 2, 3, 4]
        [[0,10,10,1,10],[10,0,10,10,10],[10,10,0,10,10],[10,10,10,0,10],[10,10,10,10,0]] := by
  have hnone : findImprove
      [[0,10,10,1,10],[10,0,10,10,10],[10,10,0,10,10],[10,10,10,0,10],[10,10,10,10,0]]
      [0, 1, 2, 3, 4] = none := by
    norm_num [findImprove, scanPairs, applyMove, tour_length, matCost, candidatePairs,
      List.range']
  have h1 : findImproveClaim
      [[0,10,10,1,10],[10,0,10,10,10],[10,10,0,10,10],[10,10,10,0,10],[10,10,10,10,0]]
      [0, 1, 2, 3, 4] = some [0, 3, 2, 1, 4] := by
    norm_num [findImproveClaim, scanPairsClaim, applyMoveClaim, tour_length, matCost,
      candidatePairs, List.range']
  have h2 : findImproveClaim
      [[0,10,10,1,10],[10,0,10,10,10],[10,10,0,10,10],[10,10,10,0,10],[10,10,10,10,0]]
      [0, 3, 2, 1, 4] = none := by
    norm_num [findImproveClaim, scanPairsClaim, applyMoveClaim, tour_length, matCost,
      candidatePairs, List.range']
  rw [two_opt, two_opt_claim, twoOptLoop_of_none hnone,
    twoOptLoopClaim_of_some h1, twoOptLoopClaim_of_none h2]
  decide

theorem applyMove_eq_amended (best : List ℕ) (i j : ℕ) :
    applyMoveAmended best i j = applyMove best i j := by
  unfold applyMove applyMoveAmended
  rw [List.drop_take]

theorem scanPairs_eq_amended (m : List (List ℚ)) (best : List ℕ) (bl : ℚ) :
    ∀ ps : List (ℕ × ℕ), scanPairsAmended m best bl ps = scanPairs m best bl ps := by
  intro ps
  induction ps with
  | nil => rfl
  | cons p ps ih =>
    obtain ⟨i, j⟩ := p
    rw [scanPairsAmended, scanPairs]
    simp only [applyMove_eq_amended, ih]

theorem findImprove_eq_amended (m : List (List ℚ)) (best : List ℕ) :
    findImproveAmended m best = findImprove m best := by
  unfold findImprove findImproveAmended
  rw [scanPairs_eq_amended]

theorem twoOptLoop_eq_amended (m : List (List ℚ)) :
    ∀ (fuel : ℕ) (best : List ℕ), twoOptLoopAmended m fuel best = twoOptLoop m fuel best := by
  intro fuel
  induction fuel with
  | zero => intro best; rfl
  | succ fuel ih =>
    intro best
    rw [twoOptLoopAmended, twoOptLoop, findImprove_eq_amended]
    cases findImprove m best with
    | none => rfl
    | some better => exact ih better

theorem candidatePairs_lt {n i j : ℕ} (h : (i, j) ∈ candidatePairs n) : i < j := by
  unfold candidatePairs at h
  simp only [List.mem_flatMap, List.mem_map, List.mem_range'] at h
  obtain ⟨a, _, b, hb, hij⟩ := h
  cases hij
  omega

theorem applyMove_perm (best : List ℕ) {i j : ℕ} (hij : i < j) :
    (applyMove best i j).Perm best := by
  have h1 : (best.drop i).take (j - i) ++ best.drop j = best.drop i := by
    conv_rhs => rw [← List.take_append_drop (j - i) (best.drop i)]
    congr 1
    rw [List.drop_drop]
    congr 1
    omega
  have h2 : (applyMove best i j).Perm
      (best.take i ++ ((best.drop i).take (j - i) ++ best.drop j)) := by
    unfold applyMove
    rw [List.append_assoc]
    exact List.Perm.append_left _ (List.Perm.append_right _ (List.reverse_perm _))
  have h3 : best.take i ++ ((best.drop i).take (j - i) ++ best.drop j) = best := by
    rw [h1]
    exact List.take_append_drop i best
  rw [h3] at h2
  exact h2

theorem scanPairs_mem {m : List (List ℚ)} {best : List ℕ} {bl : ℚ} :
    ∀ {ps : List (ℕ × ℕ)} {r : List ℕ}, scanPairs m best bl ps = some r →
      ∃ i j, (i, j) ∈ ps ∧ r = applyMove best i j := by
  intro ps
  induction ps with
  | nil => intro r h; simp [scanPairs] at h
  | cons p ps ih =>
    intro r h
    obtain ⟨i, j⟩ := p
    rw [scanPairs] at h
    split at h
    · obtain ⟨a, b, hmem, hr⟩ := ih h
      exact ⟨a, b, List.mem_cons_of_mem _ hmem, hr⟩
    · simp only [] at h
      split at h
      · cases h
        exact ⟨i, j, List.mem_cons_self _ _, rfl⟩
      · obtain ⟨a, b, hmem, hr⟩ := ih h
        exact ⟨a, b, List.mem_cons_of_mem _ hmem, hr⟩

theorem findImprove_perm {m : List (List ℚ)} {best r : List ℕ}
    (h : findImprove m best = some r) : r.Perm best := by
  obtain ⟨i, j, hmem, hr⟩ := scanPairs_mem h
  rw [hr]
  exact applyMove_perm best (candidatePairs_lt hmem)

theorem countP_le_of {α : Type} (p q : α → Bool) :
    ∀ l : List α, (∀ x ∈ l, p x = true → q x = true) → l.countP p ≤ l.countP q := by
  intro l
  induction l with
  | nil => intro; simp
  | cons x xs ih =>
    intro h
    rw [List.countP_cons, List.countP_cons]
    have hx := h x (List.mem_cons_self _ _)
    have hxs := ih fun y hy => h y (List.mem_cons_of_mem _ hy)
    by_cases hp : p x = true
    · rw [hp, hx hp]; omega
    · rw [Bool.not_eq_true] at hp
      rw [hp]; simp only [Bool.false_eq_true, if_false]
      by_cases hq : q x = true <;> simp [hq] <;> omega

theorem countP_lt_of_mem {α : Type} (p q : α → Bool) :
    ∀ (l : List α) (a : α), a ∈ l → (∀ x ∈ l, p x = true → q x = true) →
      q a = true → p a = false → l.countP p < l.countP q := by
  intro l
  induction l with
  | nil => intro a ha; simp at ha
  | cons x xs ih =>
    intro a ha h hqa hpa
    rw [List.countP_cons, List.countP_cons]
    have hxs := countP_le_of p q xs fun y hy => h y (List.mem_cons_of_mem _ hy)
    rcases List.mem_cons.1 ha with rfl | ha
    · rw [hpa, hqa]; simp; omega
    · have := ih a ha (fun y hy => h y (List.mem_cons_of_mem _ hy)) hqa hpa
      have hx := h x (List.mem_cons_self _ _)
      by_cases hp : p x = true
      · rw [hp, hx hp]; omega
      · rw [Bool.not_eq_true] at hp
        rw [hp]; simp only [Bool.false_eq_true, if_false]
        by_cases hq : q x = true <;> simp [hq] <;> omega

theorem twoOptLoop_fixpoint (m : List (List ℚ)) (r0 : List ℕ) :
    ∀ (fuel : ℕ) (best : List ℕ), best.Perm r0 →
      r0.permutations.countP (fun p => decide (tour_length m p < tour_length m best)) < fuel →
      findImprove m (twoOptLoop m fuel best) = none := by
  intro fuel
  induction fuel with
  | zero => intro best _ hcount; omega
  | succ fuel ih =>
    intro best hperm hcount
    cases h : findImprove m best with
    | none => rw [twoOptLoop, h]; exact h
    | some better =>
      rw [twoOptLoop, h]
      apply ih better ((findImprove_perm h).trans hperm)
      have hlt := findImprove_lt h
      have hstrict : r0.permutations.countP
            (fun p => decide (tour_length m p < tour_length m better)) <
          r0.permutations.countP (fun p => decide (tour_length m p < tour_length m best)) := by
        apply countP_lt_of_mem _ _ _ better
        · exact List.mem_permutations.2 ((findImprove_perm h).trans hperm)
        · intro x _ hx
          rw [decide_eq_true_eq] at hx
          rw [decide_eq_true_eq]
          exact hx.trans hlt
        · rw [decide_eq_true_eq]; exact hlt
        · rw [decide_eq_false_iff_not]; exact lt_irrefl _
      omega

/-- With `fuel = n! + 1` the loop reaches the Python `while` loop's terminal
state: the tour `two_opt` returns admits no improving move at all — a full
scan over all candidate pairs finds nothing strictly shorter. -/
theorem two_opt_reaches_fixpoint (route : List ℕ) (m : List (List ℚ)) :
    findImprove m (two_opt route m) = none := by
  unfold two_opt
  apply twoOptLoop_fixpoint m route _ route (List.Perm.refl route)
  have hle : route.permutations.countP
      (fun p => decide (tour_length m p < tour_length m route)) ≤
        route.permutations.length := List.countP_le_length _
  rw [List.length_permutations] at hle
  omega

/-- Claim C7 (amended): every candidate `two_opt` considers is obtained by
choosing `(i, j)` with `1 ≤ i < j ≤ N-2`, `j - i ≠ 1`, and reversing the
half-open segment of positions `i..j-1` (the element at position `j`, the
elements after it and the elements before position `i` — the start at
position 0 included — are unchanged); a strictly shorter candidate is
accepted immediately (first-improvement) and the scan restarts from the
top; the process stops exactly when a full scan finds no improving move:
`two_opt` coincides with the algorithm so worded (`two_opt_amended`) and
its result admits no improving move. -/
theorem two_opt_move_structure :
    (∀ (route : List ℕ) (m : List (List ℚ)), two_opt route m = two_opt_amended route m) ∧
      ∀ (route : List ℕ) (m : List (List ℚ)), findImprove m (two_opt route m) = none := by
  constructor
  · intro route m
    unfold two_opt two_opt_amended
    exact (twoOptLoop_eq_amended m _ route).symm
  · exact two_opt_reaches_fixpoint

/-! ### Helper lemmas about `pyMin` and the nearest-neighbour loop -/

theorem pyMin_cons (key : ℕ → ℚ) (u v : ℕ) (vs : List ℕ) :
    pyMin key u (v :: vs) = pyMin key (if key v < key u then v else u) vs := rfl

theorem pyMin_mem (key : ℕ → ℚ) : ∀ (vs : List ℕ) (u : ℕ), pyMin key u vs ∈ u :: vs := by
  intro vs
  induction vs with
  | nil => intro u; simp [pyMin]
  | cons v vs ih =>
    intro u
    rw [pyMin_cons]
    have h := ih (if key v < key u then v else u)
    rcases List.mem_cons.1 h with h | h
    · rw [h]
      split <;> simp
    · exact List.mem_cons_of_mem _ (List.mem_cons_of_mem _ h)

theorem pyMin_le (key : ℕ → ℚ) :
    ∀ (vs : List ℕ) (u : ℕ), ∀ k ∈ u :: vs, key (pyMin key u vs) ≤ key k := by
  intro vs
  induction vs with
  | nil =>
    intro u k hk
    rcases List.mem_cons.1 hk with rfl | hk
    · simp [pyMin]
    · simp at hk
  | cons v vs ih =>
    intro u k hk
    rw [pyMin_cons]
    have hle_u : key (if key v < key u then v else u) ≤ key u := by
      split
      · exact le_of_lt (by assumption)
      · exact le_refl _
    have hle_v : key (if key v < key u then v else u) ≤ key v := by
      split
      · exact le_refl _
      · exact le_of_not_lt (by assumption)
    rcases List.mem_cons.1 hk with rfl | hk
    · exact (ih _ _ (List.mem_cons_self _ _)).trans hle_u
    · rcases List.mem_cons.1 hk with rfl | hk
      · exact (ih _ _ (List.mem_cons_self _ _)).trans hle_v
      · exact ih _ _ (List.mem_cons_of_mem _ hk)

theorem pyMin_first (key : ℕ → ℚ) :
    ∀ (vs : List ℕ) (u : ℕ), ∃ xs ys, u :: vs = xs ++ pyMin key u vs :: ys ∧
      ∀ a ∈ xs, key (pyMin key u vs) < key a := by
  intro vs
  induction vs with
  | nil =>
    intro u
    exact ⟨[], [], by simp [pyMin], by simp⟩
  | cons v vs ih =>
    intro u
    rw [pyMin_cons]
    by_cases hvu : key v < key u
    · rw [if_pos hvu]
      obtain ⟨xs, ys, hdec, hfirst⟩ := ih v
      refine ⟨u :: xs, ys, by rw [List.cons_append, ← hdec], ?_⟩
      intro a ha
      rcases List.mem_cons.1 ha with rfl | ha
      · exact lt_of_le_of_lt (pyMin_le key vs v _ (List.mem_cons_self _ _)) hvu
      · exact hfirst a ha
    · rw [if_neg hvu]
      obtain ⟨xs, ys, hdec, hfirst⟩ := ih u
      cases xs with
      | nil =>
        simp only [List.nil_append] at hdec
        refine ⟨[], v :: vs, ?_, by simp⟩
        rw [List.nil_append]
        have hu : pyMin key u vs = u := (List.cons.inj hdec).1.symm
        rw [hu]
      | cons x xs =>
        rw [List.cons_append] at hdec
        have hx : x = u := (List.cons.inj hdec).1.symm
        have hvs : vs = xs ++ pyMin key u vs :: ys := (List.cons.inj hdec).2
        refine ⟨u :: v :: xs, ys, ?_, ?_⟩
        · rw [List.cons_append, List.cons_append, ← hvs]
        · intro a ha
          have hu_mem : key (pyMin key u vs) < key u := hfirst u (hx ▸ List.mem_cons_self _ _)
          rcases List.mem_cons.1 ha with rfl | ha
          · exact hu_mem
          · rcases List.mem_cons.1 ha with rfl | ha
            · exact lt_of_lt_of_le hu_mem (le_of_not_lt hvu)
            · exact hfirst a (hx ▸ List.mem_cons_of_mem _ ha)

theorem find?_append_of (p : ℕ → Bool) :
    ∀ (xs : List ℕ) (b : ℕ) (ys : List ℕ), (∀ a ∈ xs, p a = false) → p b = true →
      (xs ++ b :: ys).find? p = some b := by
  intro xs
  induction xs with
  | nil =>
    intro b ys _ hb
    simp [List.find?, hb]
  | cons x xs ih =>
    intro b ys hxs hb
    have hx := hxs x (List.mem_cons_self _ _)
    rw [List.cons_append, List.find?, hx]
    exact ih b ys (fun a ha => hxs a (List.mem_cons_of_mem _ ha)) hb

theorem refNext_eq (key : ℕ → ℚ) (u : ℕ) (vs : List ℕ) :
    refNext key (u :: vs) = some (pyMin key u vs) := by
  obtain ⟨xs, ys, hdec, hfirst⟩ := pyMin_first key vs u
  unfold refNext
  rw [hdec]
  apply find?_append_of
  · intro a ha
    rw [Bool.eq_false_iff]
    intro hall
    rw [List.all_eq_true] at hall
    have := hall (pyMin key u vs) (by simp)
    rw [decide_eq_true_eq] at this
    exact absurd this (not_le.2 (hfirst a ha))
  · rw [List.all_eq_true]
    intro k hk
    rw [decide_eq_true_eq]
    exact pyMin_le key vs u k (hdec ▸ hk)

theorem nnLoop_eq_greedyLoop (m : List (List ℚ)) :
    ∀ (fuel : ℕ) (us : List ℕ) (cur : ℕ), nnLoop m fuel us cur = greedyLoop m fuel us cur := by
  intro fuel
  induction fuel with
  | zero => intro us cur; rfl
  | succ fuel ih =>
    intro us cur
    cases us with
    | nil => simp [nnLoop, greedyLoop, refNext]
    | cons u vs =>
      rw [nnLoop, greedyLoop, refNext_eq]
      rw [ih]

theorem nnLoop_perm (m : List (List ℚ)) :
    ∀ (fuel : ℕ) (us : List ℕ) (cur : ℕ), us.length ≤ fuel →
      (nnLoop m fuel us cur).Perm us := by
  intro fuel
  induction fuel with
  | zero =>
    intro us cur h
    rw [Nat.le_zero, List.length_eq_zero] at h
    rw [h]
    rfl
  | succ fuel ih =>
    intro us cur h
    cases us with
    | nil => rfl
    | cons u vs =>
      rw [nnLoop]
      have hmem : pyMin (matCost m cur) u vs ∈ u :: vs := pyMin_mem _ vs u
      have hlen : ((u :: vs).erase (pyMin (matCost m cur) u vs)).length = vs.length := by
        rw [List.length_erase_of_mem hmem]
        simp
      have hvs : vs.length ≤ fuel := by
        simp only [List.length_cons] at h
        omega
      have hperm := ih ((u :: vs).erase (pyMin (matCost m cur) u vs))
        (pyMin (matCost m cur) u vs) (by rw [hlen]; exact hvs)
      exact ((hperm.cons _).trans (List.perm_cons_erase hmem).symm)

/-! ### Claim C2 -/

/-- Claim C2: for every square cost matrix of size N ≥ 1 and every start
index below N, `nearest_neighbor` returns a list of length N that is a
permutation of `0..N-1` whose first element is `start`; for N = 0 it
returns the empty tour. -/
theorem nearest_neighbor_perm (m : List (List ℚ)) (start : ℕ) :
    ((∀ row ∈ m, row.length = m.length) → start < m.length →
      (nearest_neighbor m start).length = m.length ∧
        (nearest_neighbor m start).Perm (List.range m.length) ∧
        (nearest_neighbor m start).head? = some start) ∧
      (m.length = 0 → nearest_neighbor m start = []) := by
  constructor
  · intro _ hstart
    have hne : ¬ m.length = 0 := by omega
    have hperm : (nearest_neighbor m start).Perm (List.range m.length) := by
      rw [nearest_neighbor, if_neg hne]
      have hloop := nnLoop_perm m m.length
        ((List.range m.length).filter (fun j => j ≠ start)) start
        (le_trans (List.length_filter_le _ _) (le_of_eq (List.length_range _)))
      have hfilter : (List.range m.length).erase start =
          (List.range m.length).filter (fun j => j ≠ start) := by
        rw [List.Nodup.erase_eq_filter (List.nodup_range _) start]
        apply List.filter_congr
        intro x _
        by_cases hx : x = start <;> simp [hx]
      have hcons := (List.perm_cons_erase (List.mem_range.2 hstart)).symm
      rw [hfilter] at hcons
      exact (hloop.cons start).trans hcons
    refine ⟨?_, hperm, ?_⟩
    · rw [hperm.length_eq, List.length_range]
    · rw [nearest_neighbor, if_neg hne, List.head?_cons]
  · intro h0
    rw [nearest_neighbor, if_pos h0]

/-- Witness for C2 on a concrete 2×2 matrix. -/
theorem nearest_neighbor_perm_witness :
    (nearest_neighbor [[0, 1], [1, 0]] 0).length = ([[0, 1], [1, 0]] : List (List ℚ)).length ∧
      (nearest_neighbor [[0, 1], [1, 0]] 0).Perm
        (List.range ([[0, 1], [1, 0]] : List (List ℚ)).length) ∧
      (nearest_neighbor [[0, 1], [1, 0]] 0).head? = some 0 :=
  (nearest_neighbor_perm [[0, 1], [1, 0]] 0).1 (by decide) (by decide)

/-! ### Claim C6 -/

/-- Claim C6: `nearest_neighbor` equals the spec's greedy reference
algorithm (append, at every step, the unvisited index of minimum cost from
the tour's last element, ties broken by the first candidate in ascending
index order); on the matrix `[[0,2,9,10],[1,0,6,4],[15,7,0,8],[6,3,12,0]]`
with start 0 it returns exactly `[0, 1, 3, 2]`. -/
theorem nearest_neighbor_matches_greedy :
    (∀ (m : List (List ℚ)) (start : ℕ), nearest_neighbor m start = greedy_reference m start) ∧
      nearest_neighbor [[0,2,9,10],[1,0,6,4],[15,7,0,8],[6,3,12,0]] 0 = [0, 1, 3, 2] := by
  constructor
  · intro m s
    rw [nearest_neighbor, greedy_reference]
    split
    · rfl
    · rw [nnLoop_eq_greedyLoop]
  · decide

/-! ### Helper lemmas about `scheduleLoop` -/

theorem scheduleLoop_spec (d : List (List ℚ)) (s : List ℤ)
    (oh : List (Option (String × String))) (t : ℤ) :
    ∀ (route : List ℕ) (cur : ℚ) (l : List StopSchedule),
      scheduleLoop d s oh t route cur = some l →
      l.length = route.length ∧
        ∀ (i : ℕ) (st : StopSchedule), l[i]? = some st → route[i]? = some st.index ∧
          st.departure = st.arrival + 60 * ((s.getD st.index 0 : ℤ) : ℚ) ∧
          statusOf oh t st.index st.arrival = some st.status := by
  intro route
  induction route with
  | nil =>
    intro cur l h
    rw [scheduleLoop] at h
    cases h
    refine ⟨rfl, ?_⟩
    intro i st hi
    simp at hi
  | cons loc rest ih =>
    intro cur l h
    rw [scheduleLoop] at h
    rcases hst : statusOf oh t loc cur with _ | status
    · rw [hst] at h
      simp at h
    · rw [hst, Option.some_bind] at h
      simp only [] at h
      cases rest with
      | nil =>
        cases h
        refine ⟨rfl, ?_⟩
        intro i st hi
        cases i with
        | zero =>
          simp only [List.getElem?_cons_zero, Option.some.injEq] at hi
          subst hi
          exact ⟨rfl, rfl, hst⟩
        | succ n => simp at hi
      | cons next rest2 =>
        simp only [] at h
        rcases hm : matEntry? d loc next with _ | travel
        · rw [hm] at h
          simp at h
        · rw [hm, Option.some_bind] at h
          rcases hrec : scheduleLoop d s oh t (next :: rest2)
              (cur + 60 * ((s.getD loc 0 : ℤ) : ℚ) + travel) with _ | tail
          · rw [hrec] at h
            simp at h
          · rw [hrec, Option.map_some'] at h
            obtain ⟨hlen, hprops⟩ := ih _ _ hrec
            cases h
            constructor
            · simp [hlen]
            · intro i st hi
              cases i with
              | zero =>
                simp only [List.getElem?_cons_zero, Option.some.injEq] at hi
                subst hi
                exact ⟨rfl, rfl, hst⟩
              | succ n =>
                rw [List.getElem?_cons_succ] at hi
                rw [List.getElem?_cons_succ]
                exact hprops n st hi

/-! ### Claim C3 -/

/-- Claim C3: whenever `schedule_route` returns a schedule, it has exactly
one stop per route position, in route order, and every stop's departure
timestamp is its arrival timestamp plus its location's stay duration in
minutes (the source's guarded lookup, defaulting to 0), regardless of the
stop's status. -/
theorem schedule_route_shape (route : List ℕ) (durations : List (List ℚ))
    (stay_durations : List ℤ) (open_hours : List (Option (String × String)))
    (departure_time_str : String) (tz_offset today : ℤ) (l : List StopSchedule)
    (h : schedule_route route durations stay_durations open_hours departure_time_str
        tz_offset today = some l) :
    l.length = route.length ∧
      ∀ (i : ℕ) (st : StopSchedule), l[i]? = some st → route[i]? = some st.index ∧
        st.departure = st.arrival + 60 * ((stay_durations.getD st.index 0 : ℤ) : ℚ) := by
  rw [schedule_route] at h
  rcases hp : parse_time_string departure_time_str with _ | d
  · rw [hp] at h
    exact Option.noConfusion h
  · rw [hp] at h
    obtain ⟨hlen, hprops⟩ :=
      scheduleLoop_spec durations stay_durations open_hours today route _ l h
    exact ⟨hlen, fun i st hi => ⟨(hprops i st hi).1, (hprops i st hi).2.1⟩⟩

/-- Witness for C3: a one-stop schedule with a 5-minute stay. -/
theorem schedule_route_shape_witness :
    schedule_route [0] [[0]] [5] [none] "09:00" 9 0 = some [⟨0, 32400, 32700, "ok"⟩] ∧
      ([(⟨0, 32400, 32700, "ok"⟩ : StopSchedule)]).length = [0].length := by
  have hconc : schedule_route [0] [[0]] [5] [none] "09:00" 9 0 =
      some [⟨0, 32400, 32700, "ok"⟩] := by
    rw [schedule_route, show parse_time_string "09:00" = some (9, 0) from by decide]
    norm_num [scheduleLoop, statusOf, dayBase, timeSecs, List.getD]
  exact ⟨hconc, (schedule_route_shape [0] [[0]] [5] [none] "09:00" 9 0 _ hconc).1⟩

/-! ### Claim C4 -/

/-- Claim C4: for every stop produced by `schedule_route`, no opening
window means status "ok" (OnTime); with a window, placed on the schedule's
reference date, arrival strictly before opening gives "warning" (TooEarly),
strictly after closing "closed" (TooLate), otherwise "ok"; in particular a
single stop with window ("10:00","18:00") is "warning" at 09:00, "closed"
at 19:00 and "ok" at 12:00. -/
theorem schedule_route_status :
    (∀ (route : List ℕ) (durations : List (List ℚ)) (stay_durations : List ℤ)
        (open_hours : List (Option (String × String))) (departure_time_str : String)
        (tz_offset today : ℤ) (l : List StopSchedule),
        schedule_route route durations stay_durations open_hours departure_time_str
            tz_offset today = some l →
        ∀ (i : ℕ) (st : StopSchedule), l[i]? = some st →
          (open_hours.getD st.index none = none → st.status = "ok") ∧
          (∀ (open_str close_str : String) (o c : ℕ × ℕ),
            open_hours.getD st.index none = some (open_str, close_str) →
            parse_time_string open_str = some o → parse_time_string close_str = some c →
            st.status =
              (if st.arrival < dayBase today + timeSecs o.1 o.2 then "warning"
               else if st.arrival > dayBase today + timeSecs c.1 c.2 then "closed"
               else "ok"))) ∧
      schedule_route [0] [[0]] [0] [some ("10:00", "18:00")] "09:00" 9 0 =
          some [⟨0, 32400, 32400, "warning"⟩] ∧
      schedule_route [0] [[0]] [0] [some ("10:00", "18:00")] "19:00" 9 0 =
          some [⟨0, 68400, 68400, "closed"⟩] ∧
      schedule_route [0] [[0]] [0] [some ("10:00", "18:00")] "12:00" 9 0 =
          some [⟨0, 43200, 43200, "ok"⟩] := by
  refine ⟨?_, ?_, ?_, ?_⟩
  · intro route durations stay_durations open_hours departure_time_str tz_offset today l h
      i st hi
    rw [schedule_route] at h
    rcases hp : parse_time_string departure_time_str with _ | dt
    · rw [hp] at h
      exact Option.noConfusion h
    · rw [hp] at h
      have hstat := ((scheduleLoop_spec durations stay_durations open_hours today route _ l
        h).2 i st hi).2.2
      constructor
      · intro hwin
        rw [statusOf, hwin] at hstat
        exact (Option.some.inj hstat).symm
      · intro open_str close_str o c hwin hpo hpc
        rw [statusOf, hwin] at hstat
        simp only [] at hstat
        rw [hpo, hpc] at hstat
        exact (Option.some.inj hstat).symm
  · rw [schedule_route, show parse_time_string "09:00" = some (9, 0) from by decide]
    norm_num [scheduleLoop, statusOf, dayBase, timeSecs, List.getD,
      show parse_time_string "10:00" = some (10, 0) from by decide,
      show parse_time_string "18:00" = some (18, 0) from by decide]
  · rw [schedule_route, show parse_time_string "19:00" = some (19, 0) from by decide]
    norm_num [scheduleLoop, statusOf, dayBase, timeSecs, List.getD,
      show parse_time_string "10:00" = some (10, 0) from by decide,
      show parse_time_string "18:00" = some (18, 0) from by decide]
  · rw [schedule_route, show parse_time_string "12:00" = some (12, 0) from by decide]
    norm_num [scheduleLoop, statusOf, dayBase, timeSecs, List.getD,
      show parse_time_string "10:00" = some (10, 0) from by decide,
      show parse_time_string "18:00" = some (18, 0) from by decide]

/-- Witness for C4: the window branch of the classification applied to the
09:00-arrival stop. -/
theorem schedule_route_status_witness :
    schedule_route [0] [[0]] [0] [some ("10:00", "18:00")] "09:00" 9 0 =
        some [⟨0, 32400, 32400, "warning"⟩] ∧
      (⟨0, 32400, 32400, "warning"⟩ : StopSchedule).status =
        (if (⟨0, 32400, 32400, "warning"⟩ : StopSchedule).arrival <
            dayBase 0 + timeSecs 10 0 then "warning"
         else if (⟨0, 32400, 32400, "warning"⟩ : StopSchedule).arrival >
            dayBase 0 + timeSecs 18 0 then "closed"
         else "ok") := by
  refine ⟨schedule_route_status.2.1, ?_⟩
  exact (schedule_route_status.1 [0] [[0]] [0] [some ("10:00", "18:00")] "09:00" 9 0 _
      schedule_route_status.2.1 0 _ rfl).2 "10:00" "18:00" (10, 0) (18, 0) rfl
      (by decide) (by decide)

/-! ### Claim C9 -/

theorem statusOf_shift (oh : List (Option (String × String))) (t tp : ℤ) (loc : ℕ) (x : ℚ) :
    statusOf oh tp loc (x + ((tp - t : ℤ) : ℚ) * 86400) = statusOf oh t loc x := by
  have hdb : dayBase tp = dayBase t + ((tp - t : ℤ) : ℚ) * 86400 := by
    unfold dayBase
    push_cast
    ring
  unfold statusOf
  cases oh.getD loc none with
  | none => rfl
  | some w =>
    obtain ⟨os, cs⟩ := w
    simp only []
    cases parse_time_string os with
    | none => rfl
    | some o =>
      cases parse_time_string cs with
      | none => rfl
      | some c =>
        have h1 : (x + ((tp - t : ℤ) : ℚ) * 86400 <
              dayBase t + ((tp - t : ℤ) : ℚ) * 86400 + timeSecs o.1 o.2) ↔
            (x < dayBase t + timeSecs o.1 o.2) := by
          constructor <;> intro <;> linarith
        have h2 : (x + ((tp - t : ℤ) : ℚ) * 86400 >
              dayBase t + ((tp - t : ℤ) : ℚ) * 86400 + timeSecs c.1 c.2) ↔
            (x > dayBase t + timeSecs c.1 c.2) := by
          constructor <;> intro <;> linarith
        rw [hdb]
        simp only [h1, h2]

theorem scheduleLoop_shift (d : List (List ℚ)) (s : List ℤ)
    (oh : List (Option (String × String))) (t tp : ℤ) :
    ∀ (route : List ℕ) (cur : ℚ),
      scheduleLoop d s oh tp route (cur + ((tp - t : ℤ) : ℚ) * 86400) =
        (scheduleLoop d s oh t route cur).map
          (List.map (shiftStop (((tp - t : ℤ) : ℚ) * 86400))) := by
  intro route
  induction route with
  | nil => intro cur; rfl
  | cons loc rest ih =>
    intro cur
    rw [scheduleLoop, scheduleLoop, statusOf_shift]
    cases statusOf oh t loc cur with
    | none => rfl
    | some status =>
      rw [Option.some_bind, Option.some_bind]
      simp only []
      cases rest with
      | nil =>
        simp only [Option.map_some', List.map_cons, List.map_nil]
        simp only [shiftStop, Option.some.injEq, List.cons.injEq, StopSchedule.mk.injEq]
        refine ⟨⟨?_, ?_, ?_, ?_⟩, ?_⟩ <;> first | trivial | ring
      | cons next rest2 =>
        simp only []
        cases matEntry? d loc next with
        | none => rfl
        | some travel =>
          rw [Option.some_bind, Option.some_bind]
          have harg : cur + ((tp - t : ℤ) : ℚ) * 86400 + 60 * ((s.getD loc 0 : ℤ) : ℚ) +
                travel =
              (cur + 60 * ((s.getD loc 0 : ℤ) : ℚ) + travel) + ((tp - t : ℤ) : ℚ) * 86400 := by
            ring
          rw [harg, ih]
          cases scheduleLoop d s oh t (next :: rest2)
              (cur + 60 * ((s.getD loc 0 : ℤ) : ℚ) + travel) with
          | none => rfl
          | some tail =>
            simp only [Option.map_some', Option.map_map, List.map_cons]
            simp only [shiftStop, Option.some.injEq, List.cons.injEq, StopSchedule.mk.injEq]
            refine ⟨⟨?_, ?_, ?_, ?_⟩, ?_⟩ <;> first | trivial | ring

/-- Counterexample to claim C9 as stated: `schedule_route` also reads the
hidden input `datetime.now().date()` (the reference day, modelled as the
explicit argument `today`).  Two invocations with identical explicit
arguments — route, durations, stay durations, windows, departure string and
tz_offset — but made on different days return different timestamp lists. -/
theorem schedule_route_hidden_date_counterexample :
    schedule_route [0] [[0]] [0] [none] "09:00" 9 0 ≠
      schedule_route [0] [[0]] [0] [none] "09:00" 9 1 := by
  have h0 : schedule_route [0] [[0]] [0] [none] "09:00" 9 0 =
      some [⟨0, 32400, 32400, "ok"⟩] := by
    rw [schedule_route, show parse_time_string "09:00" = some (9, 0) from by decide]
    norm_num [scheduleLoop, statusOf, dayBase, timeSecs, List.getD]
  have h1 : schedule_route [0] [[0]] [0] [none] "09:00" 9 1 =
      some [⟨0, 118800, 118800, "ok"⟩] := by
    rw [schedule_route, show parse_time_string "09:00" = some (9, 0) from by decide]
    norm_num [scheduleLoop, statusOf, dayBase, timeSecs, List.getD]
  rw [h0, h1]
  intro hcon
  simp only [Option.some.injEq, List.cons.injEq, StopSchedule.mk.injEq] at hcon
  norm_num at hcon

/-- Claim C9 (amended): `schedule_route` is a deterministic function of its
explicit arguments TOGETHER WITH the current date read from the system
clock (`datetime.now().date()`, the argument `today`); the date influences
the result only by translating every arrival and departure timestamp by a
whole number of days, leaving indices and statuses unchanged. -/
theorem schedule_route_today_shift (route : List ℕ) (durations : List (List ℚ))
    (stay_durations : List ℤ) (open_hours : List (Option (String × String)))
    (departure_time_str : String) (tz_offset t tp : ℤ) :
    schedule_route route durations stay_durations open_hours departure_time_str tz_offset tp =
      (schedule_route route durations stay_durations open_hours departure_time_str
          tz_offset t).map
        (List.map (shiftStop (((tp - t : ℤ) : ℚ) * 86400))) := by
  rw [schedule_route, schedule_route]
  cases parse_time_string departure_time_str with
  | none => rfl
  | some dt =>
    simp only []
    have hstart : dayBase tp + timeSecs dt.1 dt.2 =
        (dayBase t + timeSecs dt.1 dt.2) + ((tp - t : ℤ) : ℚ) * 86400 := by
      unfold dayBase
      push_cast
      ring
    rw [hstart, scheduleLoop_shift]

/-! ### Claim C8 -/

/-- Claim C8 evaluated at a concrete input (the source's
`compute_sequential_schedule` cannot even run: it begins with
`from movewise.schedule import Stop`, a name movewise/schedule.py does not
define, so every call raises ImportError; its loop is modelled here with
`Stop := StopSchedule`).  With the same visiting order `[0, 1]`, the same
single leg duration 600 s, the same stay durations `[30, 0]`, the same
(absent) windows and the same 09:00 departure, the two functions disagree:
the sequential variant departs the start stop at its arrival time,
ignoring the start stop's 30-minute stay that `schedule_route` applies,
and every later timestamp shifts accordingly. -/
theorem sequential_schedule_divergence :
    compute_sequential_schedule [600] [30, 0] [none, none] "09:00" 0 ≠
      schedule_route [0, 1] [[0, 600], [0, 0]] [30, 0] [none, none] "09:00" 9 0 := by
  have h1 : compute_sequential_schedule [600] [30, 0] [none, none] "09:00" 0 =
      some [⟨0, 32400, 32400, "ok"⟩, ⟨1, 33000, 33000, "ok"⟩] := by
    rw [compute_sequential_schedule,
      show parse_time_string "09:00" = some (9, 0) from by decide]
    norm_num [seqLoop, dayBase, timeSecs, List.getElem?_cons_zero, List.getElem?_cons_succ]
  have h2 : schedule_route [0, 1] [[0, 600], [0, 0]] [30, 0] [none, none] "09:00" 9 0 =
      some [⟨0, 32400, 34200, "ok"⟩, ⟨1, 34800, 34800, "ok"⟩] := by
    rw [schedule_route, show parse_time_string "09:00" = some (9, 0) from by decide]
    norm_num [scheduleLoop, statusOf, matEntry?, dayBase, timeSecs, List.getD,
      List.getElem?_cons_zero, List.getElem?_cons_succ]
  rw [h1, h2]
  intro hcon
  simp only [Option.some.injEq, List.cons.injEq, StopSchedule.mk.injEq] at hcon
  norm_num at hcon

/-! ### Claim C1 -/

/-- Claim C1: for every pair of candidate tours over the same duration
matrix, the selection rule returns the duration-optimised tour with
criterion "time" when its total duration is exactly zero; otherwise it
compares `diff_pct = |t_time - t_dist| / t_time * 100` with the threshold,
choosing the distance tour ("distance") when `diff_pct ≤ threshold` and the
time tour ("time") when above; the reported duration is the selected
tour's.  With threshold 10, a 5 % difference selects "distance" and a 15 %
difference selects "time". -/
theorem select_route_rule (dur_matrix : List (List ℚ)) (time_route dist_route : List ℕ)
    (threshold_pct : ℚ) :
    (total_duration dur_matrix time_route = 0 →
      select_route dur_matrix time_route dist_route threshold_pct =
        ⟨time_route, "time", total_duration dur_matrix time_route⟩) ∧
    (total_duration dur_matrix time_route ≠ 0 →
      |total_duration dur_matrix time_route - total_duration dur_matrix dist_route| /
          total_duration dur_matrix time_route * 100 ≤ threshold_pct →
      select_route dur_matrix time_route dist_route threshold_pct =
        ⟨dist_route, "distance", total_duration dur_matrix dist_route⟩) ∧
    (total_duration dur_matrix time_route ≠ 0 →
      ¬(|total_duration dur_matrix time_route - total_duration dur_matrix dist_route| /
          total_duration dur_matrix time_route * 100 ≤ threshold_pct) →
      select_route dur_matrix time_route dist_route threshold_pct =
        ⟨time_route, "time", total_duration dur_matrix time_route⟩) ∧
    select_route [[0, 100], [105, 0]] [0, 1] [1, 0] 10 = ⟨[1, 0], "distance", 105⟩ ∧
    select_route [[0, 100], [115, 0]] [0, 1] [1, 0] 10 = ⟨[0, 1], "time", 100⟩ := by
  refine ⟨?_, ?_, ?_, ?_, ?_⟩
  · intro h0
    simp only [select_route]
    rw [if_pos h0]
  · intro h0 hle
    simp only [select_route]
    rw [if_neg h0, if_pos hle]
  · intro h0 hgt
    simp only [select_route]
    rw [if_neg h0, if_neg hgt]
  · norm_num [select_route, total_duration, tour_length, matCost]
  · norm_num [select_route, total_duration, tour_length, matCost]

/-- Witness for C1: the 5 % case goes through the "distance" branch. -/
theorem select_route_rule_witness :
    total_duration [[0, 100], [105, 0]] [0, 1] ≠ 0 ∧
      |total_duration [[0, 100], [105, 0]] [0, 1] -
          total_duration [[0, 100], [105, 0]] [1, 0]| /
        total_duration [[0, 100], [105, 0]] [0, 1] * 100 ≤ 10 ∧
      select_route [[0, 100], [105, 0]] [0, 1] [1, 0] 10 =
        ⟨[1, 0], "distance", total_duration [[0, 100], [105, 0]] [1, 0]⟩ := by
  have h0 : total_duration [[0, 100], [105, 0]] [0, 1] ≠ 0 := by
    norm_num [total_duration, tour_length, matCost]
  have hle : |total_duration [[0, 100], [105, 0]] [0, 1] -
        total_duration [[0, 100], [105, 0]] [1, 0]| /
      total_duration [[0, 100], [105, 0]] [0, 1] * 100 ≤ 10 := by
    norm_num [total_duration, tour_length, matCost]
  exact ⟨h0, hle, (select_route_rule [[0, 100], [105, 0]] [0, 1] [1, 0] 10).2.1 h0 hle⟩

end MoveWise

